import Mathlib

/-!
Verification of the redis-bloom repository: a Bloom filter backed by a remote
Redis bitmap.  The definitions below are a shallow embedding of
`src/bloom.ts` and `src/redis.ts`: the pure bit-position engine is embedded
as Lean functions on `Nat` (JavaScript's `>>> 0` coercion is the explicit
`% 2 ^ 32`), the effect of a pipelined batch of `setBit`/`getBit` commands is
embedded as explicit state passing on a bitmap `Nat → Bool`, and the remote
store is a map from key names to bitmaps (a deleted or absent key reads as
the all-zero bitmap, matching Redis `GETBIT` semantics).
-/

set_option autoImplicit false

namespace RedisBloom

/-- A remote bitmap: bit offset to bit value.  Redis bits default to 0
(`false`) until set. -/
abbrev Bitmap : Type := Nat → Bool

/-- The remote store: one bitmap per key name.  An absent key behaves as the
all-`false` bitmap, so deletion is modelled as resetting to that bitmap. -/
abbrev Store : Type := String → Bitmap

/-- Embedding of `computeItemBitPositions` (bloom.ts lines 251-275): double
hashing.  `hash1` and `hash2` are the two hash evaluations on `item`; the
loop pushes `((hash1 + i * hash2) >>> 0) % bloomFilterSize` for
`i = 0 .. positionCount-1`.  `>>> 0` on a nonnegative integer is reduction
mod `2 ^ 32`. -/
def computeItemBitPositions (item : String) (positionCount bloomFilterSize : Nat)
    (hashFunction1 hashFunction2 : String → Nat) : List Nat :=
  let hash1 := hashFunction1 item
  let hash2 := hashFunction2 item
  (List.range positionCount).map fun i => ((hash1 + i * hash2) % 2 ^ 32) % bloomFilterSize

/-- The configuration a `RedisBloomFilter` instance is constructed with
(bloom.ts lines 144-151): size in bits, hashes per item, and the two hash
functions. -/
structure FilterConfig where
  hashesPerItem : Nat
  sizeInBits : Nat
  hashFunction1 : String → Nat
  hashFunction2 : String → Nat

/-- The bit positions of one item under a configuration, as every filter
method obtains them from `computeItemBitPositions`. -/
def itemPositions (cfg : FilterConfig) (item : String) : List Nat :=
  computeItemBitPositions item cfg.hashesPerItem cfg.sizeInBits
    cfg.hashFunction1 cfg.hashFunction2

/-- Effect of one queued `setBit key p 1` command on the key's bitmap. -/
def setBitOne (bm : Bitmap) (p : Nat) : Bitmap :=
  fun q => if q = p then true else bm q

/-- The ordered list of offsets for which `add` queues `setBit _ _ 1`
(bloom.ts lines 160-172): every position of every item, in order, without
deduplication. -/
def setBitOps (cfg : FilterConfig) (items : List String) : List Nat :=
  items.flatMap (itemPositions cfg)

/-- Embedding of `RedisBloomFilter.add` (bloom.ts lines 156-175): the net
effect on the key's bitmap of executing the pipelined batch of
`setBit _ _ 1` commands. -/
def add (cfg : FilterConfig) (items : List String) (bm : Bitmap) : Bitmap :=
  (setBitOps cfg items).foldl setBitOne bm

/-- `Set.add` of a JavaScript `Set`, on the insertion-ordered list model:
appends the element unless already present. -/
def jsSetAdd {α : Type} [DecidableEq α] (l : List α) (x : α) : List α :=
  if x ∈ l then l else l ++ [x]

/-- The `positionsToKnow` set of `extractContainedItems` (bloom.ts lines
183-199): all items' positions, deduplicated in insertion order. -/
def positionsToKnow (cfg : FilterConfig) (items : List String) : List Nat :=
  items.foldl (fun acc item => (itemPositions cfg item).foldl jsSetAdd acc) []

/-- The `setPositions` set of `extractContainedItems` (bloom.ts lines
211-218): the queried positions whose pipelined `getBit` result was 1. -/
def setPositions (cfg : FilterConfig) (items : List String) (bm : Bitmap) : List Nat :=
  (positionsToKnow cfg items).filter bm

/-- Embedding of `RedisBloomFilter.extractContainedItems` (bloom.ts lines
181-233): deduplicate all items' positions, read them in one batch, then
collect (as a set) the items all of whose positions read as set. -/
def extractContainedItems (cfg : FilterConfig) (items : List String) (bm : Bitmap) :
    List String :=
  items.foldl
    (fun acc item =>
      if (itemPositions cfg item).all (fun p => decide (p ∈ setPositions cfg items bm)) then
        jsSetAdd acc item
      else acc)
    []

/-- Embedding of `RedisBloomFilterClient.clear` (bloom.ts lines 135-137),
which calls `redis.del name` (redis.ts lines 70-72): the key is deleted, and
a deleted key reads as the all-zero bitmap. -/
def clear (store : Store) (name : String) : Store :=
  fun k => if k = name then (fun _ => false) else store k

/-!
Model of `crypto.subtle.digest "SHA-256"` (the platform primitive called by
`toUint32UsingSha256`, bloom.ts line 238), per FIPS 180-4, on byte lists. -/

/-- Right rotation of a 32-bit word. -/
def rotr32 (n w : Nat) : Nat := (w / 2 ^ n + w % 2 ^ n * 2 ^ (32 - n)) % 2 ^ 32

/-- Logical right shift. -/
def shr32 (n w : Nat) : Nat := w / 2 ^ n

def smallSigma0 (w : Nat) : Nat := rotr32 7 w ^^^ rotr32 18 w ^^^ shr32 3 w

def smallSigma1 (w : Nat) : Nat := rotr32 17 w ^^^ rotr32 19 w ^^^ shr32 10 w

def bigSigma0 (w : Nat) : Nat := rotr32 2 w ^^^ rotr32 13 w ^^^ rotr32 22 w

def bigSigma1 (w : Nat) : Nat := rotr32 6 w ^^^ rotr32 11 w ^^^ rotr32 25 w

/-- SHA-256 Ch function; complement is xor with the 32-bit all-ones mask. -/
def chW (e f g : Nat) : Nat := (e &&& f) ^^^ ((e ^^^ 0xffffffff) &&& g)

/-- SHA-256 Maj function. -/
def majW (a b c : Nat) : Nat := (a &&& b) ^^^ (a &&& c) ^^^ (b &&& c)

/-- The 64 SHA-256 round constants. -/
def sha256K : List Nat :=
  [1116352408, 1899447441, 3049323471, 3921009573, 961987163, 1508970993,
   2453635748, 2870763221, 3624381080, 310598401, 607225278, 1426881987,
   1925078388, 2162078206, 2614888103, 3248222580, 3835390401, 4022224774,
   264347078, 604807628, 770255983, 1249150122, 1555081692, 1996064986,
   2554220882, 2821834349, 2952996808, 3210313671, 3336571891, 3584528711,
   113926993, 338241895, 666307205, 773529912, 1294757372, 1396182291,
   1695183700, 1986661051, 2177026350, 2456956037, 2730485921, 2820302411,
   3259730800, 3345764771, 3516065817, 3600352804, 4094571909, 275423344,
   430227734, 506948616, 659060556, 883997877, 958139571, 1322822218,
   1537002063, 1747873779, 1955562222, 2024104815, 2227730452, 2361852424,
   2428436474, 2756734187, 3204031479, 3329325298]

/-- The eight SHA-256 working registers. -/
structure Sha256State where
  a : Nat
  b : Nat
  c : Nat
  d : Nat
  e : Nat
  f : Nat
  g : Nat
  h : Nat

/-- The SHA-256 initial hash value. -/
def sha256InitState : Sha256State :=
  ⟨1779033703, 3144134277, 1013904242, 2773480762,
   1359893119, 2600822924, 528734635, 1541459225⟩

/-- One SHA-256 compression round, consuming a schedule word paired with a
round constant. -/
def compressRound (st : Sha256State) (wk : Nat × Nat) : Sha256State :=
  let t1 := (st.h + bigSigma1 st.e + chW st.e st.f st.g + wk.2 + wk.1) % 2 ^ 32
  let t2 := (bigSigma0 st.a + majW st.a st.b st.c) % 2 ^ 32
  { a := (t1 + t2) % 2 ^ 32, b := st.a, c := st.b, d := st.c,
    e := (st.d + t1) % 2 ^ 32, f := st.e, g := st.f, h := st.g }

/-- The SHA-256 message schedule, emitted from a sliding window of the last
16 words: the word after `w0 .. w15` is
`w0 + smallSigma0 w1 + w9 + smallSigma1 w14` mod `2 ^ 32`. -/
def scheduleWords :
    Nat → Nat → Nat → Nat → Nat → Nat → Nat → Nat → Nat →
    Nat → Nat → Nat → Nat → Nat → Nat → Nat → Nat → List Nat
  | 0, _, _, _, _, _, _, _, _, _, _, _, _, _, _, _, _ => []
  | n + 1, w0, w1, w2, w3, w4, w5, w6, w7, w8, w9, w10, w11, w12, w13, w14, w15 =>
      w0 :: scheduleWords n w1 w2 w3 w4 w5 w6 w7 w8 w9 w10 w11 w12 w13 w14 w15
        ((w0 + smallSigma0 w1 + w9 + smallSigma1 w14) % 2 ^ 32)
termination_by structural n => n

/-- The 64-word message schedule of a 16-word block. -/
def messageSchedule (ws : List Nat) : List Nat :=
  scheduleWords 64 (ws.getD 0 0) (ws.getD 1 0) (ws.getD 2 0) (ws.getD 3 0)
    (ws.getD 4 0) (ws.getD 5 0) (ws.getD 6 0) (ws.getD 7 0)
    (ws.getD 8 0) (ws.getD 9 0) (ws.getD 10 0) (ws.getD 11 0)
    (ws.getD 12 0) (ws.getD 13 0) (ws.getD 14 0) (ws.getD 15 0)

/-- Process one 16-word block. -/
def compressBlock (hs : Sha256State) (block : List Nat) : Sha256State :=
  let st := ((messageSchedule block).zip sha256K).foldl compressRound hs
  { a := (hs.a + st.a) % 2 ^ 32, b := (hs.b + st.b) % 2 ^ 32,
    c := (hs.c + st.c) % 2 ^ 32, d := (hs.d + st.d) % 2 ^ 32,
    e := (hs.e + st.e) % 2 ^ 32, f := (hs.f + st.f) % 2 ^ 32,
    g := (hs.g + st.g) % 2 ^ 32, h := (hs.h + st.h) % 2 ^ 32 }

/-- Big-endian 32-bit words from a byte list (length a multiple of 4 here). -/
def bytesToWordsBE : List Nat → List Nat
  | b0 :: b1 :: b2 :: b3 :: rest =>
      (b0 * 2 ^ 24 + b1 * 2 ^ 16 + b2 * 2 ^ 8 + b3) :: bytesToWordsBE rest
  | _ => []

/-- Big-endian bytes of a 32-bit word. -/
def wordToBytesBE (w : Nat) : List Nat :=
  [w / 2 ^ 24 % 256, w / 2 ^ 16 % 256, w / 2 ^ 8 % 256, w % 256]

/-- Split a word list into blocks of 16 (the padded input is always a
multiple of 16 words). -/
def toBlocks : List Nat → List (List Nat)
  | w0 :: w1 :: w2 :: w3 :: w4 :: w5 :: w6 :: w7 ::
      w8 :: w9 :: w10 :: w11 :: w12 :: w13 :: w14 :: w15 :: rest =>
      [w0, w1, w2, w3, w4, w5, w6, w7, w8, w9, w10, w11, w12, w13, w14, w15]
        :: toBlocks rest
  | _ => []

/-- The 8-byte big-endian encoding of the message bit length. -/
def lengthBytesBE (n : Nat) : List Nat :=
  [n / 2 ^ 56 % 256, n / 2 ^ 48 % 256, n / 2 ^ 40 % 256, n / 2 ^ 32 % 256,
   n / 2 ^ 24 % 256, n / 2 ^ 16 % 256, n / 2 ^ 8 % 256, n % 256]

/-- SHA-256 padding: a 0x80 byte, zeros to 56 mod 64, then the bit length. -/
def padMessage (msg : List Nat) : List Nat :=
  msg ++ [0x80] ++ List.replicate ((119 - msg.length % 64) % 64) 0
    ++ lengthBytesBE (8 * msg.length)

/-- The registers as a word list, for digest serialization. -/
def stateWords (s : Sha256State) : List Nat :=
  [s.a, s.b, s.c, s.d, s.e, s.f, s.g, s.h]

/-- SHA-256 of a byte list, as the 32-byte digest. -/
def sha256 (msg : List Nat) : List Nat :=
  let final := (toBlocks (bytesToWordsBE (padMessage msg))).foldl compressBlock sha256InitState
  (stateWords final).flatMap wordToBytesBE

/-- UTF-8 encoding of one code point, as `TextEncoder` produces for each
character of a JavaScript string. -/
def utf8EncodeCodePoint (c : Nat) : List Nat :=
  if c < 0x80 then [c]
  else if c < 0x800 then [0xc0 + c / 64, 0x80 + c % 64]
  else if c < 0x10000 then [0xe0 + c / 4096, 0x80 + c / 64 % 64, 0x80 + c % 64]
  else [0xf0 + c / 262144, 0x80 + c / 4096 % 64, 0x80 + c / 64 % 64, 0x80 + c % 64]

/-- `new TextEncoder().encode data` (bloom.ts line 237): the UTF-8 bytes of
the string. -/
def textEncoderEncode (s : String) : List Nat :=
  s.data.flatMap fun ch => utf8EncodeCodePoint ch.toNat

/-- `DataView.getUint32 off true` (bloom.ts line 242): the little-endian
unsigned 32-bit integer at byte offset `off`. -/
def getUint32LE (bytes : List Nat) (off : Nat) : Nat :=
  bytes.getD off 0 + bytes.getD (off + 1) 0 * 2 ^ 8
    + bytes.getD (off + 2) 0 * 2 ^ 16 + bytes.getD (off + 3) 0 * 2 ^ 24

/-- Embedding of `toUint32UsingSha256` (bloom.ts lines 236-243). -/
def toUint32UsingSha256 (data : String) (offsetInBytes : Nat) : Nat :=
  getUint32LE (sha256 (textEncoderEncode data)) offsetInBytes

/-- The default first hash function installed by `create` (bloom.ts line
92): digest bytes 0-3, little-endian. -/
def defaultHashFunction1 (data : String) : Nat := toUint32UsingSha256 data 0

/-- The default second hash function installed by `create` (bloom.ts line
93): digest bytes 4-7, little-endian. -/
def defaultHashFunction2 (data : String) : Nat := toUint32UsingSha256 data 4

/-- JavaScript `x || d` on an optional numeric parameter: an omitted value
and the falsy number 0 both give the default; any other number, including a
negative one, passes through. -/
def jsNumOr (v : Option Int) (d : Int) : Int :=
  match v with
  | none => d
  | some x => if x = 0 then d else x

/-- The state a `RedisBloomFilterClient` is constructed with (bloom.ts
lines 106-112). -/
structure ClientConfig where
  bloomFilterSizeInBits : Int
  hashesPerItem : Int
  hashFunction1 : String → Nat
  hashFunction2 : String → Nat

/-- Embedding of `RedisBloomFilterClient.create` (bloom.ts lines 76-97): the
client state it constructs.  It is a total function: the source performs no
validation of any parameter, so no error outcome exists. -/
def create (bloomFilterSizeInBits hashesPerItem : Option Int)
    (hashFunction1 hashFunction2 : Option (String → Nat)) : ClientConfig :=
  { bloomFilterSizeInBits := jsNumOr bloomFilterSizeInBits 10000
    hashesPerItem := jsNumOr hashesPerItem 3
    hashFunction1 := hashFunction1.getD defaultHashFunction1
    hashFunction2 := hashFunction2.getD defaultHashFunction2 }

/-- Modelled from the spec: the error raised by an operation attempted after
`close`.  The repository's `close` (bloom.ts lines 114-116, redis.ts lines
47-49) only delegates to the external redis client's `quit`; the post-close
failure behavior lives in that external client, not under src/. -/
inductive ClientError where
  | ClosedError
deriving DecidableEq

/-- The operations the client and its filter handles expose. -/
inductive ClientOp where
  | getFilter (name : String)
  | clearName (name : String)
  | addItems (name : String) (items : List String)
  | extractItems (name : String) (items : List String)
  | closeClient

/-- The connection state shared by the client and every filter handle. -/
structure ConnState where
  closed : Bool

/-- Modelled from the spec: `close` releases the remote connection. -/
def closeConn (_ : ConnState) : ConnState := { closed := true }

/-- Whether an operation issues at least one command on the shared
connection.  `get` (bloom.ts lines 121-130) is pure handle construction —
it performs no closed-state check and no remote call; `clear` issues `del`,
`add` and `extractContainedItems` execute a pipeline, and `close` issues
`quit`. -/
def touchesConnection : ClientOp → Bool
  | .getFilter _ => false
  | _ => true

/-- Modelled from the spec (only the rejection itself, which lives in the
external redis client, not under src/): an operation that reaches a
released connection fails with `ClosedError`; `get`, which never reaches
the connection (bloom.ts lines 121-130), succeeds unconditionally. -/
def runClientOp (s : ConnState) (op : ClientOp) : Except ClientError ConnState :=
  if touchesConnection op && s.closed then .error .ClosedError
  else
    match op with
    | .closeClient => .ok { closed := true }
    | _ => .ok s

/-- The members declared by the `BloomFilterClient` interface (bloom.ts
lines 6-21), in source order. -/
def BloomFilterClientMethods : List String := ["get", "clear", "close"]

/-- The methods declared by the `RedisBloomFilterClient` class (bloom.ts
lines 59-138), in source order. -/
def RedisBloomFilterClientMethods : List String := ["create", "close", "get", "clear"]

/-- The methods declared by the `NodeRedisAdapter` class (redis.ts lines
7-77), in source order. -/
def NodeRedisAdapterMethods : List String :=
  ["create", "connect", "close", "pipeline", "del", "flushAll"]

end RedisBloom

namespace RedisBloom

theorem mem_jsSetAdd {α : Type} [DecidableEq α] (l : List α) (x a : α) :
    a ∈ jsSetAdd l x ↔ a ∈ l ∨ a = x := by
  unfold jsSetAdd
  by_cases h : x ∈ l
  · simp only [if_pos h]
    exact ⟨Or.inl, fun h' => h'.elim id fun he => he ▸ h⟩
  · simp [if_neg h, List.mem_append]

theorem nodup_jsSetAdd {α : Type} [DecidableEq α] (l : List α) (x : α) (hl : l.Nodup) :
    (jsSetAdd l x).Nodup := by
  unfold jsSetAdd
  by_cases h : x ∈ l
  · simpa [if_pos h] using hl
  · simp [if_neg h, List.nodup_append, hl, h]

theorem mem_foldl_jsSetAdd {α : Type} [DecidableEq α] (l acc : List α) (a : α) :
    a ∈ l.foldl jsSetAdd acc ↔ a ∈ acc ∨ a ∈ l := by
  induction l generalizing acc with
  | nil => simp
  | cons x xs ih =>
    simp only [List.foldl_cons, ih, mem_jsSetAdd, List.mem_cons]
    tauto

theorem nodup_foldl_jsSetAdd {α : Type} [DecidableEq α] (l acc : List α)
    (h : acc.Nodup) : (l.foldl jsSetAdd acc).Nodup := by
  induction l generalizing acc with
  | nil => simpa
  | cons x xs ih => exact ih _ (nodup_jsSetAdd _ _ h)

theorem mem_foldl_positions (cfg : FilterConfig) (items : List String)
    (acc : List Nat) (p : Nat) :
    p ∈ items.foldl (fun acc it => (itemPositions cfg it).foldl jsSetAdd acc) acc ↔
      p ∈ acc ∨ ∃ it ∈ items, p ∈ itemPositions cfg it := by
  induction items generalizing acc with
  | nil => simp
  | cons x xs ih =>
    simp only [List.foldl_cons, ih, mem_foldl_jsSetAdd, List.mem_cons]
    constructor
    · rintro ((h | h) | ⟨it, hit, hp⟩)
      · exact Or.inl h
      · exact Or.inr ⟨x, Or.inl rfl, h⟩
      · exact Or.inr ⟨it, Or.inr hit, hp⟩
    · rintro (h | ⟨it, (rfl | hit), hp⟩)
      · exact Or.inl (Or.inl h)
      · exact Or.inl (Or.inr hp)
      · exact Or.inr ⟨it, hit, hp⟩

theorem mem_positionsToKnow (cfg : FilterConfig) (items : List String) (p : Nat) :
    p ∈ positionsToKnow cfg items ↔ ∃ it ∈ items, p ∈ itemPositions cfg it := by
  simpa using mem_foldl_positions cfg items [] p

theorem nodup_positionsToKnow (cfg : FilterConfig) (items : List String) :
    (positionsToKnow cfg items).Nodup := by
  unfold positionsToKnow
  generalize hacc : ([] : List Nat) = acc
  have hnd : acc.Nodup := by rw [← hacc]; exact List.nodup_nil
  clear hacc
  induction items generalizing acc with
  | nil => simpa
  | cons x xs ih => exact ih _ (nodup_foldl_jsSetAdd _ _ hnd)

theorem mem_setPositions (cfg : FilterConfig) (items : List String) (bm : Bitmap)
    (p : Nat) :
    p ∈ setPositions cfg items bm ↔ p ∈ positionsToKnow cfg items ∧ bm p = true := by
  simp [setPositions, List.mem_filter]

theorem mem_foldl_condAdd (cond : String → Bool) (l acc : List String) (x : String) :
    x ∈ l.foldl (fun acc it => if cond it then jsSetAdd acc it else acc) acc ↔
      x ∈ acc ∨ (x ∈ l ∧ cond x = true) := by
  induction l generalizing acc with
  | nil => simp
  | cons y ys ih =>
    by_cases hy : cond y
    · simp only [List.foldl_cons, hy, if_pos, ih, mem_jsSetAdd, List.mem_cons]
      constructor
      · rintro ((h | rfl) | ⟨hm, hc⟩)
        · exact Or.inl h
        · exact Or.inr ⟨Or.inl rfl, hy⟩
        · exact Or.inr ⟨Or.inr hm, hc⟩
      · rintro (h | ⟨(rfl | hm), hc⟩)
        · exact Or.inl (Or.inl h)
        · exact Or.inl (Or.inr rfl)
        · exact Or.inr ⟨hm, hc⟩
    · simp only [List.foldl_cons, hy, if_neg, Bool.false_eq_true, ih, List.mem_cons]
      constructor
      · rintro (h | ⟨hm, hc⟩)
        · exact Or.inl h
        · exact Or.inr ⟨Or.inr hm, hc⟩
      · rintro (h | ⟨(rfl | hm), hc⟩)
        · exact Or.inl h
        · exact absurd hc (by simp [hy])
        · exact Or.inr ⟨hm, hc⟩

theorem nodup_foldl_condAdd (cond : String → Bool) (l acc : List String)
    (h : acc.Nodup) :
    (l.foldl (fun acc it => if cond it then jsSetAdd acc it else acc) acc).Nodup := by
  induction l generalizing acc with
  | nil => simpa
  | cons y ys ih =>
    simp only [List.foldl_cons]
    by_cases hy : cond y
    · rw [if_pos hy]; exact ih _ (nodup_jsSetAdd _ _ h)
    · rw [if_neg hy]; exact ih _ h

theorem mem_extractContainedItems (cfg : FilterConfig) (items : List String)
    (bm : Bitmap) (x : String) :
    x ∈ extractContainedItems cfg items bm ↔
      x ∈ items ∧ ∀ p ∈ itemPositions cfg x, bm p = true := by
  unfold extractContainedItems
  rw [mem_foldl_condAdd]
  simp only [List.not_mem_nil, false_or]
  constructor
  · rintro ⟨hx, hcond⟩
    refine ⟨hx, fun p hp => ?_⟩
    have hdec := List.all_eq_true.mp hcond p hp
    have hmem : p ∈ setPositions cfg items bm := of_decide_eq_true hdec
    exact ((mem_setPositions cfg items bm p).mp hmem).2
  · rintro ⟨hx, hall⟩
    refine ⟨hx, List.all_eq_true.mpr fun p hp => decide_eq_true ?_⟩
    exact (mem_setPositions cfg items bm p).mpr
      ⟨(mem_positionsToKnow cfg items p).mpr ⟨x, hx, hp⟩, hall p hp⟩

theorem nodup_extractContainedItems (cfg : FilterConfig) (items : List String)
    (bm : Bitmap) : (extractContainedItems cfg items bm).Nodup :=
  nodup_foldl_condAdd _ items [] List.nodup_nil

theorem foldl_setBitOne (l : List Nat) (bm : Bitmap) (q : Nat) :
    l.foldl setBitOne bm q = true ↔ bm q = true ∨ q ∈ l := by
  induction l generalizing bm with
  | nil => simp
  | cons x xs ih =>
    simp only [List.foldl_cons, ih, setBitOne, List.mem_cons]
    by_cases hq : q = x
    · simp [hq]
    · simp [hq]

theorem add_bit_iff (cfg : FilterConfig) (items : List String) (bm : Bitmap)
    (q : Nat) :
    add cfg items bm q = true ↔
      bm q = true ∨ ∃ it ∈ items, q ∈ itemPositions cfg it := by
  unfold add
  rw [foldl_setBitOne]
  simp [setBitOps, List.mem_flatMap]

set_option maxRecDepth 4000

theorem sha256_nil_eq :
    sha256 [] = [227, 176, 196, 66, 152, 252, 28, 20, 154, 251, 244, 200, 153, 111, 185, 36, 39, 174, 65, 228, 100, 155, 147, 76, 164, 149, 153, 27, 120, 82, 184, 85] := by
  have hblock : toBlocks (bytesToWordsBE (padMessage [])) = [[2147483648, 0, 0, 0, 0, 0, 0, 0, 0, 0, 0, 0, 0, 0, 0, 0]] := by rfl
  have hz : (messageSchedule [2147483648, 0, 0, 0, 0, 0, 0, 0, 0, 0, 0, 0, 0, 0, 0, 0]).zip sha256K =
      [(2147483648, 1116352408), (0, 1899447441), (0, 3049323471), (0, 3921009573), (0, 961987163), (0, 1508970993), (0, 2453635748), (0, 2870763221)] ++ ([(0, 3624381080), (0, 310598401), (0, 607225278), (0, 1426881987), (0, 1925078388), (0, 2162078206), (0, 2614888103), (0, 3248222580)] ++ ([(2147483648, 3835390401), (0, 4022224774), (2117632, 264347078), (0, 604807628), (570427392, 770255983), (0, 1249150122), (84448578, 1555081692), (2147483648, 1996064986)] ++ ([(1476919296, 2554220882), (4235264, 2821834349), (1451269, 2952996808), (1711282176, 3210313671), (3592562048, 3336571891), (337794312, 3584528711), (3594910044, 113926993), (3374850048, 338241895)] ++ ([(3287351444, 666307205), (676112230, 773529912), (109604294, 1294757372), (2742808854, 1396182291), (1904000662, 1695183700), (4274181962, 1986661051), (2813755136, 2177026350), (2165675682, 2456956037)] ++ ([(2561075048, 2730485921), (62000258, 2820302411), (1562224585, 3259730800), (2975250741, 3345764771), (3286092305, 3516065817), (614207615, 3600352804), (3297584367, 4094571909), (1575308336, 275423344)] ++ ([(3741240933, 430227734), (748767245, 506948616), (1008022316, 659060556), (30329261, 883997877), (369937616, 958139571), (195877528, 1322822218), (907775968, 1537002063), (3526495142, 1747873779)] ++ ([(43741191, 1955562222), (1967544444, 2024104815), (133517113, 2227730452), (4161330627, 2361852424), (3704256008, 2428436474), (1581412744, 2756734187), (1153231965, 3204031479), (996066459, 3329325298)]))))))) := by rfl
  have h1 : List.foldl compressRound sha256InitState [(2147483648, 1116352408), (0, 1899447441), (0, 3049323471), (0, 3921009573), (0, 961987163), (0, 1508970993), (0, 2453635748), (0, 2870763221)] = ⟨2060825014, 4028650896, 690895682, 1130821424, 1408847307, 2196627567, 1332035834, 3889194014⟩ := by rfl
  have h2 : List.foldl compressRound ⟨2060825014, 4028650896, 690895682, 1130821424, 1408847307, 2196627567, 1332035834, 3889194014⟩ [(0, 3624381080), (0, 310598401), (0, 607225278), (0, 1426881987), (0, 1925078388), (0, 2162078206), (0, 2614888103), (0, 3248222580)] = ⟨3019933109, 3096116699, 1170215847, 553833165, 1555621987, 483372089, 725774998, 3455974994⟩ := by rfl
  have h3 : List.foldl compressRound ⟨3019933109, 3096116699, 1170215847, 553833165, 1555621987, 483372089, 725774998, 3455974994⟩ [(2147483648, 3835390401), (0, 4022224774), (2117632, 264347078), (0, 604807628), (570427392, 770255983), (0, 1249150122), (84448578, 1555081692), (2147483648, 1996064986)] = ⟨2556161365, 1078820948, 2577845017, 1976037592, 741081741, 2976200464, 3263666206, 966081741⟩ := by rfl
  have h4 : List.foldl compressRound ⟨2556161365, 1078820948, 2577845017, 1976037592, 741081741, 2976200464, 3263666206, 966081741⟩ [(1476919296, 2554220882), (4235264, 2821834349), (1451269, 2952996808), (1711282176, 3210313671), (3592562048, 3336571891), (337794312, 3584528711), (3594910044, 113926993), (3374850048, 338241895)] = ⟨300352095, 2696613087, 1926471693, 1690082844, 3151463532, 1447716390, 2957685293, 2506713973⟩ := by rfl
  have h5 : List.foldl compressRound ⟨300352095, 2696613087, 1926471693, 1690082844, 3151463532, 1447716390, 2957685293, 2506713973⟩ [(3287351444, 666307205), (676112230, 773529912), (109604294, 1294757372), (2742808854, 1396182291), (1904000662, 1695183700), (4274181962, 1986661051), (2813755136, 2177026350), (2165675682, 2456956037)] = ⟨1234768305, 2656625711, 1457773646, 2694206301, 1902882853, 2242319396, 3892832895, 4206914285⟩ := by rfl
  have h6 : List.foldl compressRound ⟨1234768305, 2656625711, 1457773646, 2694206301, 1902882853, 2242319396, 3892832895, 4206914285⟩ [(2561075048, 2730485921), (62000258, 2820302411), (1562224585, 3259730800), (2975250741, 3345764771), (3286092305, 3516065817), (614207615, 3600352804), (3297584367, 4094571909), (1575308336, 275423344)] = ⟨911881421, 1419259244, 855262251, 2752082644, 3417569515, 2322236082, 3531982457, 2855016464⟩ := by rfl
  have h7 : List.foldl compressRound ⟨911881421, 1419259244, 855262251, 2752082644, 3417569515, 2322236082, 3531982457, 2855016464⟩ [(3741240933, 430227734), (748767245, 506948616), (1008022316, 659060556), (30329261, 883997877), (369937616, 958139571), (195877528, 1322822218), (907775968, 1537002063), (3526495142, 1747873779)] = ⟨23298068, 749689034, 974034039, 2981272720, 2918796810, 3850954136, 4254700398, 1134943992⟩ := by rfl
  have h8 : List.foldl compressRound ⟨23298068, 749689034, 974034039, 2981272720, 2918796810, 3850954136, 4254700398, 1134943992⟩ [(43741191, 1955562222), (1967544444, 2024104815), (133517113, 2227730452), (4161330627, 2361852424), (3704256008, 2428436474), (1581412744, 2756734187), (1153231965, 3204031479), (996066459, 3329325298)] = ⟨2040978907, 3717492111, 1586299222, 4095722474, 3600805733, 3382061760, 2232532848, 477227836⟩ := by rfl
  have hst : ((messageSchedule [2147483648, 0, 0, 0, 0, 0, 0, 0, 0, 0, 0, 0, 0, 0, 0, 0]).zip sha256K).foldl compressRound sha256InitState = ⟨2040978907, 3717492111, 1586299222, 4095722474, 3600805733, 3382061760, 2232532848, 477227836⟩ := by
    rw [hz, List.foldl_append, h1, List.foldl_append, h2, List.foldl_append, h3, List.foldl_append, h4, List.foldl_append, h5, List.foldl_append, h6, List.foldl_append, h7, h8]
  have hcomp : compressBlock sha256InitState [2147483648, 0, 0, 0, 0, 0, 0, 0, 0, 0, 0, 0, 0, 0, 0, 0] = ⟨3820012610, 2566659092, 2600203464, 2574235940, 665731556, 1687917388, 2761267483, 2018687061⟩ := by
    simp only [compressBlock]
    rw [hst]
    rfl
  simp only [sha256]
  rw [hblock]
  simp only [List.foldl_cons, List.foldl_nil]
  rw [hcomp]
  rfl

theorem textEncoderEncode_nil : textEncoderEncode "" = [] := by rfl

theorem wordToBytesBE_lt (w b : Nat) (hb : b ∈ wordToBytesBE w) : b < 256 := by
  simp only [wordToBytesBE, List.mem_cons, List.not_mem_nil, or_false] at hb
  rcases hb with rfl | rfl | rfl | rfl <;> exact Nat.mod_lt _ (by norm_num)

theorem sha256_byte_lt (msg : List Nat) (b : Nat) (hb : b ∈ sha256 msg) : b < 256 := by
  simp only [sha256, List.mem_flatMap] at hb
  obtain ⟨w, _, hbw⟩ := hb
  exact wordToBytesBE_lt w b hbw

theorem getD_lt (l : List Nat) (i : Nat) (h : ∀ b ∈ l, b < 256) : l.getD i 0 < 256 := by
  induction l generalizing i with
  | nil => simp [List.getD]
  | cons x xs ih =>
    cases i with
    | zero => simpa [List.getD] using h x (List.mem_cons_self x xs)
    | succ n =>
      simpa [List.getD] using ih n fun b hb => h b (List.mem_cons_of_mem x hb)

theorem getUint32LE_lt (bytes : List Nat) (off : Nat) (h : ∀ b ∈ bytes, b < 256) :
    getUint32LE bytes off < 2 ^ 32 := by
  have h0 := getD_lt bytes off h
  have h1 := getD_lt bytes (off + 1) h
  have h2 := getD_lt bytes (off + 2) h
  have h3 := getD_lt bytes (off + 3) h
  unfold getUint32LE
  simp only [show (2 : Nat) ^ 8 = 256 from rfl, show (2 : Nat) ^ 16 = 65536 from rfl,
    show (2 : Nat) ^ 24 = 16777216 from rfl]
  simp only [show (2 : Nat) ^ 32 = 4294967296 from rfl]
  omega

theorem sha256_length (msg : List Nat) : (sha256 msg).length = 32 := by
  simp [sha256, stateWords, wordToBytesBE]

/-- Claim C5: with no caller-supplied hash functions, `create` installs
`toUint32UsingSha256 _ 0` and `toUint32UsingSha256 _ 4`, which read the
little-endian unsigned 32-bit integers at the non-overlapping byte windows
0-3 and 4-7 of the 32-byte SHA-256 digest of the item; both values are below
`2 ^ 32`, and the empty string is a valid item whose two hashes are the
expected values derived from the standard SHA-256 digest of the empty byte
sequence. -/
theorem defaultHashFunctions_sha256_windows :
    (∀ s : String,
      (create none none none none).hashFunction1 s =
        (sha256 (textEncoderEncode s)).getD 0 0
          + (sha256 (textEncoderEncode s)).getD 1 0 * 2 ^ 8
          + (sha256 (textEncoderEncode s)).getD 2 0 * 2 ^ 16
          + (sha256 (textEncoderEncode s)).getD 3 0 * 2 ^ 24) ∧
    (∀ s : String,
      (create none none none none).hashFunction2 s =
        (sha256 (textEncoderEncode s)).getD 4 0
          + (sha256 (textEncoderEncode s)).getD 5 0 * 2 ^ 8
          + (sha256 (textEncoderEncode s)).getD 6 0 * 2 ^ 16
          + (sha256 (textEncoderEncode s)).getD 7 0 * 2 ^ 24) ∧
    (∀ msg : List Nat, (sha256 msg).length = 32) ∧
    (∀ s : String, defaultHashFunction1 s < 2 ^ 32 ∧ defaultHashFunction2 s < 2 ^ 32) ∧
    defaultHashFunction1 "" = 0x42c4b0e3 ∧ defaultHashFunction2 "" = 0x141cfc98 := by
  refine ⟨fun s => rfl, fun s => rfl, sha256_length, fun s => ?_, ?_, ?_⟩
  · exact ⟨getUint32LE_lt _ 0 (sha256_byte_lt _), getUint32LE_lt _ 4 (sha256_byte_lt _)⟩
  · unfold defaultHashFunction1 toUint32UsingSha256
    rw [textEncoderEncode_nil, sha256_nil_eq]
    rfl
  · unfold defaultHashFunction2 toUint32UsingSha256
    rw [textEncoderEncode_nil, sha256_nil_eq]
    rfl

/-- Claim C1: for every item, configuration with positive `bitArraySize` and
`hashCount`, and hash values below `2 ^ 32`, `computeItemBitPositions`
returns exactly `hashCount` positions, whose `i`-th element is
`((h1 + i * h2) mod 2 ^ 32) mod bitArraySize`, each below `bitArraySize`;
duplicates are kept, as the length and per-index characterization show. -/
theorem computeItemBitPositions_correct (item : String) (k m : Nat)
    (f1 f2 : String → Nat) (hm : 0 < m) (hk : 0 < k)
    (h1 : f1 item < 2 ^ 32) (h2 : f2 item < 2 ^ 32) :
    (computeItemBitPositions item k m f1 f2).length = k ∧
    (∀ i, i < k →
      (computeItemBitPositions item k m f1 f2)[i]? =
        some (((f1 item + i * f2 item) % 2 ^ 32) % m)) ∧
    ∀ p ∈ computeItemBitPositions item k m f1 f2, p < m := by
  refine ⟨by simp [computeItemBitPositions], fun i hi => ?_, fun p hp => ?_⟩
  · simp [computeItemBitPositions, List.getElem?_map, List.getElem?_range, hi]
  · simp only [computeItemBitPositions, List.mem_map, List.mem_range] at hp
    obtain ⟨i, _, rfl⟩ := hp
    exact Nat.mod_lt _ hm

/-- Claim C1 witness at a concrete input. -/
theorem computeItemBitPositions_correct_witness :
    (computeItemBitPositions "foo" 3 7 (fun _ => 5) (fun _ => 11))[1]? =
      some (((5 + 1 * 11) % 2 ^ 32) % 7) :=
  (computeItemBitPositions_correct "foo" 3 7 (fun _ => 5) (fun _ => 11)
    (by decide) (by decide) (by decide) (by decide)).2.1 1 (by decide)

/-- Claim C2: `extractContainedItems` reads each distinct position once (the
batched read list is duplicate-free and contains exactly the positions of
the input items), an item is returned iff all of its positions read as set,
and the returned collection is duplicate-free. -/
theorem extractContainedItems_correct (cfg : FilterConfig) (items : List String)
    (bm : Bitmap) :
    (positionsToKnow cfg items).Nodup ∧
    (∀ p, p ∈ positionsToKnow cfg items ↔ ∃ it ∈ items, p ∈ itemPositions cfg it) ∧
    (∀ x, x ∈ extractContainedItems cfg items bm ↔
      x ∈ items ∧ ∀ p ∈ itemPositions cfg x, bm p = true) ∧
    (extractContainedItems cfg items bm).Nodup :=
  ⟨nodup_positionsToKnow cfg items, mem_positionsToKnow cfg items,
   mem_extractContainedItems cfg items bm, nodup_extractContainedItems cfg items bm⟩

/-- Claim C3: no false negatives — if `x` is among the items passed to
`add`, then querying `x` against the updated bitmap returns a set
containing `x`, whatever the starting bitmap. -/
theorem add_no_false_negatives (cfg : FilterConfig) (items : List String)
    (bm : Bitmap) (x : String) (hx : x ∈ items) :
    x ∈ extractContainedItems cfg [x] (add cfg items bm) := by
  rw [mem_extractContainedItems]
  refine ⟨List.mem_singleton.mpr rfl, fun p hp => ?_⟩
  rw [add_bit_iff]
  exact Or.inr ⟨x, hx, hp⟩

/-- Claim C3 witness at a concrete input. -/
theorem add_no_false_negatives_witness :
    "foo" ∈ extractContainedItems ⟨3, 7, fun _ => 5, fun _ => 11⟩ ["foo"]
      (add ⟨3, 7, fun _ => 5, fun _ => 11⟩ ["foo", "bar"] (fun _ => false)) :=
  add_no_false_negatives ⟨3, 7, fun _ => 5, fun _ => 11⟩ ["foo", "bar"]
    (fun _ => false) "foo" (by decide)

/-- Claim C4 counterexample: construction with non-positive
`bloomFilterSizeInBits = -5` and `hashesPerItem = -2` succeeds and stores
those values unchanged — `create` is a total function with no error outcome,
so no `ConfigurationError` is raised eagerly (or ever). -/
theorem create_accepts_nonpositive_cex :
    (create (some (-5)) (some (-2)) none none).bloomFilterSizeInBits = -5 ∧
    (create (some (-5)) (some (-2)) none none).hashesPerItem = -2 :=
  ⟨rfl, rfl⟩

/-- Claim C4 (amended): construction performs no validation — a nonzero
value (positive or negative) for `bloomFilterSizeInBits` or `hashesPerItem`
is accepted unchanged, while an omitted or zero (falsy) value is silently
replaced by the defaults 10000 and 3; supplied hash functions are installed
without being probed, and `create` has no error outcome. -/
theorem create_no_validation (b k : Int) (hb : b ≠ 0) (hk : k ≠ 0) :
    (create (some b) (some k) none none).bloomFilterSizeInBits = b ∧
    (create (some b) (some k) none none).hashesPerItem = k ∧
    (create none none none none).bloomFilterSizeInBits = 10000 ∧
    (create none none none none).hashesPerItem = 3 ∧
    (create (some 0) (some 0) none none).bloomFilterSizeInBits = 10000 ∧
    (create (some 0) (some 0) none none).hashesPerItem = 3 := by
  refine ⟨?_, ?_, rfl, rfl, rfl, rfl⟩ <;> simp [create, jsNumOr, hb, hk]

/-- Claim C4 witness at a concrete input. -/
theorem create_no_validation_witness :
    (create (some 25000) (some 5) none none).bloomFilterSizeInBits = 25000 :=
  (create_no_validation 25000 5 (by decide) (by decide)).1

/-- Claim C6: `clear name` resets only the bitmap stored under `name`
(every other key is untouched), clearing is idempotent (clearing an
already-absent key changes nothing), and afterwards no queried item is
reported as contained for that name, provided at least one hash per item is
configured. -/
theorem clear_correct (store : Store) (name : String) (cfg : FilterConfig)
    (hk : 0 < cfg.hashesPerItem) :
    (∀ k, k ≠ name → clear store name k = store k) ∧
    (∀ k, clear (clear store name) name k = clear store name k) ∧
    (∀ k p, (∀ q, store name q = false) → clear store name k p = store k p) ∧
    (∀ items x, x ∉ extractContainedItems cfg items (clear store name name)) := by
  refine ⟨fun k hkn => ?_, fun k => ?_, fun k p habsent => ?_, fun items x hx => ?_⟩
  · simp [clear, hkn]
  · by_cases h : k = name <;> simp [clear, h]
  · by_cases h : k = name
    · subst h
      simp [clear, habsent p]
    · simp [clear, h]
  · rw [mem_extractContainedItems] at hx
    obtain ⟨hxi, hall⟩ := hx
    have hlen : (itemPositions cfg x).length = cfg.hashesPerItem := by
      simp [itemPositions, computeItemBitPositions]
    have hne : itemPositions cfg x ≠ [] := by
      intro h
      rw [h] at hlen
      simp only [List.length_nil] at hlen
      omega
    obtain ⟨p, hp⟩ := List.exists_mem_of_ne_nil _ hne
    have hbit := hall p hp
    simp [clear] at hbit

/-- Claim C6 witness at a concrete input. -/
theorem clear_correct_witness :
    "foo" ∉ extractContainedItems ⟨3, 7, fun _ => 5, fun _ => 11⟩ ["foo"]
      (clear (fun _ _ => true) "a" "a") :=
  (clear_correct (fun _ _ => true) "a" ⟨3, 7, fun _ => 5, fun _ => 11⟩
    (by decide)).2.2.2 ["foo"] "foo"

/-- Claim C7 counterexample: `get` after `close` does not fail with a
`ClosedError` — it succeeds, returning a handle.  `get` (bloom.ts lines
121-130) is pure handle construction in src/: it performs no closed-state
check and no remote call, so the claim's "every further operation" is false
of the program at this operation. -/
theorem get_after_close_succeeds_cex :
    runClientOp (closeConn ⟨false⟩) (ClientOp.getFilter "a") =
      Except.ok { closed := true } :=
  rfl

/-- Claim C7 (amended, the remote-rejection part spec-modelled): after
`close`, every operation that reaches the shared connection — `clear`,
`add`, `extractContainedItems`, and a repeated `close` — fails with
`ClosedError`, while `get`, which is pure handle construction with no
remote call, still succeeds with the connection state unchanged. -/
theorem closed_ops_behavior (s : ConnState) (op : ClientOp) (name : String) :
    (touchesConnection op = true →
      runClientOp (closeConn s) op = Except.error ClientError.ClosedError) ∧
    runClientOp (closeConn s) (ClientOp.getFilter name) = Except.ok (closeConn s) := by
  constructor
  · intro ht
    cases op <;> simp_all [runClientOp, touchesConnection, closeConn]
  · rfl

/-- Claim C7 witness at a concrete input. -/
theorem closed_ops_behavior_witness :
    runClientOp (closeConn ⟨false⟩) (ClientOp.clearName "a") =
      Except.error ClientError.ClosedError :=
  (closed_ops_behavior ⟨false⟩ (ClientOp.clearName "a") "a").1 rfl

/-- Claim C8: the `BloomFilterClient` interface and the
`RedisBloomFilterClient` class declare no `clearAll` member, although the
`NodeRedisAdapter` does declare the bulk-clear primitive `flushAll` — the
operation the spec and the repository's own test script expect is absent
from the client. -/
theorem clearAll_absent_from_client :
    "clearAll" ∉ BloomFilterClientMethods ∧
    "clearAll" ∉ RedisBloomFilterClientMethods ∧
    "flushAll" ∈ NodeRedisAdapterMethods := by
  decide

/-- Claim C9: `add` with zero items leaves every bit unchanged, and
`extractContainedItems` with zero items returns the empty set; neither is an
error (both are total functions). -/
theorem zero_items_noop (cfg : FilterConfig) (bm : Bitmap) :
    (∀ p, add cfg [] bm p = bm p) ∧ extractContainedItems cfg [] bm = [] :=
  ⟨fun _ => rfl, rfl⟩

/-- Claim C10: membership is monotone under `add` — an `add` call only ever
turns bits on, and any item reported contained before an `add` of arbitrary
items is still reported contained afterwards. -/
theorem add_monotone (cfg : FilterConfig) (qItems addedItems : List String)
    (bm : Bitmap) (x : String)
    (hx : x ∈ extractContainedItems cfg qItems bm) :
    (∀ p, bm p = true → add cfg addedItems bm p = true) ∧
    x ∈ extractContainedItems cfg qItems (add cfg addedItems bm) := by
  have hmono : ∀ p, bm p = true → add cfg addedItems bm p = true := fun p hp =>
    (add_bit_iff cfg addedItems bm p).mpr (Or.inl hp)
  refine ⟨hmono, ?_⟩
  rw [mem_extractContainedItems] at hx ⊢
  exact ⟨hx.1, fun p hp => hmono p (hx.2 p hp)⟩

/-- Claim C10 witness at a concrete input. -/
theorem add_monotone_witness :
    "foo" ∈ extractContainedItems ⟨3, 7, fun _ => 5, fun _ => 11⟩ ["foo"]
      (add ⟨3, 7, fun _ => 5, fun _ => 11⟩ ["bar"] (fun _ => true)) :=
  (add_monotone ⟨3, 7, fun _ => 5, fun _ => 11⟩ ["foo"] ["bar"]
    (fun _ => true) "foo" (by decide)).2

end RedisBloom
